import Mathlib

/-!
Verification of the Jippity message-handling core (neuro-api-jippity).

This file gives a shallow embedding of the repository's core:
the message codec (`api-types.ts`: `deserializeMessage`, the per-command
ajv validators, `validateActionSchema`), the session handler
(`jippity-handler.ts`: `JippityHandler` with `receiveMessage`,
`handleMessage`, `processMessageQueue`, `registerActions`,
`unregisterActions`, `addContext`, `addActionResult`,
`handleForcedAction`, and the synchronous part of `callOpenAI`), the
completion-response continuation (the `.then`/`.catch` callbacks of
`callOpenAI`), the forced-action message builder
(`utils.ts`: `convertForcedActionMessageToOpenAIMessage`), and the run
loop scheduling (`index.ts`: `main`), together with theorems settling
stated properties of that code.

External collaborators are modelled as inputs: the ajv schema-validity
oracle is a function parameter `av`, the OpenAI completion outcome is a
`CompletionResult` value, and the JSON parse stage is an
`Option JsonValue` (with `none` for unparseable input).
-/

namespace Jippity

/-- A parsed JSON value as produced by `JSON.parse`.  Numbers are
modelled as integers (the protocol payloads the code inspects carry no
fractional numbers on any path the theorems exercise). -/
inductive JsonValue where
  | null
  | bool (b : Bool)
  | num (n : Int)
  | str (s : String)
  | arr (items : List JsonValue)
  | obj (fields : List (String × JsonValue))

/-- JavaScript truthiness of a JSON value: `null`, `false`, `0` and the
empty string are falsy; arrays and objects are always truthy. -/
def jsTruthy : JsonValue → Bool
  | .null => false
  | .bool b => b
  | .num n => n != 0
  | .str s => s != ""
  | .arr _ => true
  | .obj _ => true

/-- Property read `v[key]` for the payload fields the code accesses.
Only objects carry such fields; reading a field off any other
(non-null) value yields `undefined`, modelled as `none`.  Duplicate
keys resolve to the last binding, as in `JSON.parse`. -/
def getProperty (v : JsonValue) (key : String) : Option JsonValue :=
  match v with
  | .obj fields => fields.reverse.lookup key
  | _ => none

mutual

/-- JavaScript `ToString` on a JSON value, as applied by the `in`
operator and bracket indexing when the `command` field is not a
string. -/
def jsToPropertyKey : JsonValue → String
  | .null => "null"
  | .bool true => "true"
  | .bool false => "false"
  | .num n => toString n
  | .str s => s
  | .obj _ => "[object Object]"
  | .arr items => jsArrayJoin items

/-- `Array.prototype.toString`: elements converted and joined with a
comma, with `null` elements contributing the empty string. -/
def jsArrayJoin : List JsonValue → String
  | [] => ""
  | [x] => jsArrayElemString x
  | x :: rest => jsArrayElemString x ++ "," ++ jsArrayJoin rest

def jsArrayElemString : JsonValue → String
  | .null => ""
  | v => jsToPropertyKey v

end

/-- `Object.keys` for the values `validateActionSchema` probes (the
decoded `schema` field is an object or `null`; other values contribute
no keys on the paths exercised here). -/
def jsObjectKeys : JsonValue → List String
  | .obj fields => (fields.map Prod.fst).eraseDups
  | _ => []

/-! ## The ajv validators (`api-types.ts`)

Each per-command JSON schema in `api-types.ts` is compiled to a boolean
check.  The schemas all have the same shape: `type: "object"`,
`properties`, `required`, `additionalProperties: false`, with
`nullable: true` admitting `null` for optional fields. -/

def vTypeString : JsonValue → Bool
  | .str _ => true
  | _ => false

def vTypeStringNullable : JsonValue → Bool
  | .str _ => true
  | .null => true
  | _ => false

def vTypeBoolean : JsonValue → Bool
  | .bool _ => true
  | _ => false

def vTypeBooleanNullable : JsonValue → Bool
  | .bool _ => true
  | .null => true
  | _ => false

def vTypeStringConst (c : String) : JsonValue → Bool
  | .str s => s == c
  | _ => false

def vStringArray : JsonValue → Bool
  | .arr xs => xs.all vTypeString
  | _ => false

/-- An object or `null` with arbitrary properties
(`type: "object", nullable: true, additionalProperties: true`). -/
def vObjectNullable : JsonValue → Bool
  | .obj _ => true
  | .null => true
  | _ => false

/-- `type: "object"` with the given property subschemas, required keys,
and `additionalProperties: false`. -/
def checkObject (props : List (String × (JsonValue → Bool)))
    (required : List String) (v : JsonValue) : Bool :=
  match v with
  | .obj fields =>
      required.all (fun k => (fields.reverse.lookup k).isSome) &&
      fields.all (fun kv => props.any (fun p => p.1 == kv.1)) &&
      props.all (fun p =>
        match fields.reverse.lookup p.1 with
        | none => true
        | some w => p.2 w)
  | _ => false

def vStartupMessage : JsonValue → Bool :=
  checkObject
    [("command", vTypeStringConst "startup"), ("game", vTypeString)]
    ["command", "game"]

def vContextMessage : JsonValue → Bool :=
  checkObject
    [("command", vTypeStringConst "context"), ("game", vTypeString),
     ("data", checkObject
       [("message", vTypeString), ("silent", vTypeBoolean)]
       ["message", "silent"])]
    ["command", "game", "data"]

def vActionItem : JsonValue → Bool :=
  checkObject
    [("name", vTypeString), ("description", vTypeString),
     ("schema", vObjectNullable)]
    ["name", "description"]

def vRegisterActionsMessage : JsonValue → Bool :=
  checkObject
    [("command", vTypeStringConst "actions/register"), ("game", vTypeString),
     ("data", checkObject
       [("actions", fun v =>
          match v with
          | .arr xs => xs.all vActionItem
          | _ => false)]
       ["actions"])]
    ["command", "game", "data"]

def vUnregisterActionsMessage : JsonValue → Bool :=
  checkObject
    [("command", vTypeStringConst "actions/unregister"), ("game", vTypeString),
     ("data", checkObject
       [("action_names", vStringArray)]
       ["action_names"])]
    ["command", "game", "data"]

def vForceActionMessage : JsonValue → Bool :=
  checkObject
    [("command", vTypeStringConst "actions/force"), ("game", vTypeString),
     ("data", checkObject
       [("state", vTypeStringNullable), ("query", vTypeString),
        ("ephemeral_context", vTypeBooleanNullable),
        ("action_names", vStringArray)]
       ["query", "action_names"])]
    ["command", "game", "data"]

def vActionResultMessage : JsonValue → Bool :=
  checkObject
    [("command", vTypeStringConst "action/result"), ("game", vTypeString),
     ("data", checkObject
       [("id", vTypeString), ("success", vTypeBoolean),
        ("message", vTypeStringNullable)]
       ["id", "success"])]
    ["command", "game", "data"]

def vActionMessage : JsonValue → Bool :=
  checkObject
    [("command", vTypeStringConst "action"),
     ("data", checkObject
       [("id", vTypeString), ("name", vTypeString),
        ("data", vTypeStringNullable)]
       ["id", "name"])]
    ["command", "data"]

/-- The `Validators` record of `api-types.ts`, keyed by command. -/
def validatorsList : List (String × (JsonValue → Bool)) :=
  [("startup", vStartupMessage),
   ("context", vContextMessage),
   ("actions/register", vRegisterActionsMessage),
   ("actions/unregister", vUnregisterActionsMessage),
   ("actions/force", vForceActionMessage),
   ("action/result", vActionResultMessage),
   ("action", vActionMessage)]

/-- Outcome of `deserializeMessage` (`api-types.ts`).  The `ok` case
carries the parsed value itself: the TypeScript cast
`obj as MessageTypeMapping[T]` is the identity at runtime.  `thrown`
records a synchronous exception escaping the function. -/
inductive DeserializeOutcome where
  | ok (value : JsonValue)
  | errNotJson
  | errMissingCommand
  | errUnknownCommand
  | errValidationFailed
  | thrown

/-- What happens when an inherited `Object.prototype` member is used as
the validator. -/
inductive ProtoCall where
  | truthy
  | throws
  | absent
deriving DecidableEq

/-- `Validators` is a plain object literal, so the `in` operator also
finds the twelve string-keyed members it inherits from
`Object.prototype`; a command naming one passes the unknown-command
check, and `Validators[command]` yields the inherited member, which
`validateAndCast` then calls as `validator(obj)` — a bare call, so in
the strict mode of the compiled module its `this` is `undefined`.
`toString` returns the truthy string `[object Undefined]` and
`constructor` is `Object`, which returns its (object) argument, so
these take the `ok` branch; `__proto__` reads as `Object.prototype`,
which is not callable, and each of the remaining members converts the
undefined `this` with `ToObject` (or invokes `toString` on it), so
these throw a `TypeError`.  Every other key is not found by `in` and
produces the unknown-command error. -/
def protoMember : String → ProtoCall
  | "toString" => .truthy
  | "constructor" => .truthy
  | "toLocaleString" => .throws
  | "valueOf" => .throws
  | "hasOwnProperty" => .throws
  | "isPrototypeOf" => .throws
  | "propertyIsEnumerable" => .throws
  | "__defineGetter__" => .throws
  | "__defineSetter__" => .throws
  | "__lookupGetter__" => .throws
  | "__lookupSetter__" => .throws
  | "__proto__" => .throws
  | _ => .absent

/-- `deserializeMessage(json)` after the `JSON.parse` stage, which is
supplied as `none` (parse failure) or `some v` (the parsed value).

Mirrors `api-types.ts` lines 303-322: parse failure returns the
not-JSON error; then `if (!obj.command)` — which throws a `TypeError`
when the parsed value is `null` — returns the missing-command error on
a falsy command; the `obj.command in Validators` check fails only for
keys that are neither the seven own keys nor inherited
`Object.prototype` members, returning the unknown-command error; an
own key's ajv validator decides between `ok` and a validation error
(`validateAndCast`, lines 286-296), while an inherited member called
as the validator yields `ok` when its result is truthy and an escaping
`TypeError` otherwise (see `protoMember`). -/
def deserializeMessage (parsed : Option JsonValue) : DeserializeOutcome :=
  match parsed with
  | none => .errNotJson
  | some obj =>
    match obj with
    | .null => .thrown
    | _ =>
      match getProperty obj "command" with
      | none => .errMissingCommand
      | some cv =>
        if !jsTruthy cv then .errMissingCommand
        else
          match validatorsList.lookup (jsToPropertyKey cv) with
          | some validator =>
            if validator obj then .ok obj else .errValidationFailed
          | none =>
            match protoMember (jsToPropertyKey cv) with
            | .truthy => .ok obj
            | .throws => .thrown
            | .absent => .errUnknownCommand

/-! ## Data model (`api-types.ts`, `jippity-types.ts`, `index.ts`) -/

/-- A registrable game action (`Action` in `api-types.ts`).  The
optional `schema` field holds the raw JSON value decoded for it (an
object or `null` after validation). -/
structure Action where
  name : String
  description : String
  schema : Option JsonValue

/-- The payload of an outbound `action` message
(`ActionMessage.data`). -/
structure ActionData where
  id : String
  name : String
  data : Option String
deriving DecidableEq

/-- The payload of an `actions/force` message
(`ForceActionMessage.data`). -/
structure ForceActionData where
  state : Option String
  query : String
  ephemeral_context : Option Bool
  action_names : List String
deriving DecidableEq

/-- The decoded protocol messages (`Message` in `api-types.ts`). -/
inductive Message where
  | startup (game : String)
  | context (game : String) (message : String) (silent : Bool)
  | registerActions (game : String) (actions : List Action)
  | unregisterActions (game : String) (action_names : List String)
  | forceAction (game : String) (data : ForceActionData)
  | actionResult (game : String) (id : String) (success : Bool)
      (message : Option String)
  | action (data : ActionData)

/-- The `command` discriminator of a message. -/
def Message.command : Message → String
  | .startup _ => "startup"
  | .context _ _ _ => "context"
  | .registerActions _ _ => "actions/register"
  | .unregisterActions _ _ => "actions/unregister"
  | .forceAction _ _ => "actions/force"
  | .actionResult _ _ _ _ => "action/result"
  | .action _ => "action"

/-- A tool call inside an assistant completion message
(`ChatCompletionMessageToolCall`, with `function.name` and
`function.arguments`). -/
structure ToolCall where
  id : String
  name : String
  arguments : String
deriving DecidableEq

/-- A conversation turn (`ChatCompletionMessageParam`).  The tool-result
turn carries the `success`/`message` record the handler stringifies
into its `content`. -/
inductive ChatMessage where
  | system (content : String)
  | user (content : String)
  | assistant (content : Option String) (tool_calls : List ToolCall)
  | tool (tool_call_id : String) (success : Bool) (message : Option String)

/-- The initial system turn (`SYSTEM_MESSAGE` in `index.ts`). -/
def SYSTEM_MESSAGE : ChatMessage :=
  .system
    ("You are Jippity, an artificial intelligence designed to play video games on a livestream.\n" ++
     "The messages you receive contain information about what's happening in the game." ++
     "You will use function calls to perform game actions. " ++
     "Do not attempt to make in-game actions in your text responses. " ++
     "Remember that you are the one playing the game, not the audience.\n" ++
     "\n" ++
     "If you don't have any functions available or in-game actions you want to take, you can talk about your half-brother Randy and your cousin Neuro-sama." ++
     "If you are feeling lonely because no one is talking in chat, you can make up stories about Randy and Neuro." ++
     "Try to limit your monologues to a few sentences at a time.")

/-- The session lifecycle state (`State` in `jippity-types.ts`).  The
pending states carry the broadcast action's payload, and the forced
variant additionally retains the originating force request. -/
inductive State where
  | waitingForGameStartup
  | idle
  | thinking
  | pendingAction (action : ActionData)
  | pendingForcedAction (action : ActionData) (forcedAction : ForceActionData)
  | talking
  | exiting (reason : Option String)
deriving DecidableEq

/-- Whether the state is `state/pending-action` or
`state/pending-forced-action`. -/
def State.isPending : State → Bool
  | .pendingAction _ => true
  | .pendingForcedAction _ _ => true
  | _ => false

/-- The action payload carried by a pending state, if any. -/
def State.pendingPayload : State → Option ActionData
  | .pendingAction a => some a
  | .pendingForcedAction a _ => some a
  | _ => none

/-- The mutable fields of `JippityHandler` (`jippity-handler.ts`
lines 24-38). -/
structure Handler where
  game : Option String
  actions : List Action
  openaiMessages : List ChatMessage
  pendingActionId : Option String
  state : State
  messageQueue : List Message

/-- A fresh `JippityHandler`. -/
def initHandler : Handler :=
  { game := none
    actions := []
    openaiMessages := [SYSTEM_MESSAGE]
    pendingActionId := none
    state := .waitingForGameStartup
    messageQueue := [] }

/-- Truthiness of a nullable string field (`null` and the empty string
are falsy). -/
def strTruthy : Option String → Bool
  | none => false
  | some s => s != ""

/-! ## Handler operations (`jippity-handler.ts`)

Each public or private method of `JippityHandler` becomes a function
from the handler record to a `HandleOut`.  `threw` records a
synchronous `assert` failure escaping the method (caught by the
websocket `message` listener in `index.ts`).  `calls` records, in
order, the invocations of `callOpenAI` the method started, each with
the `forceActionMessage` argument it was given (the synchronous part of
`callOpenAI` sets the state to `state/thinking`; the response is
handled later by `completeInvocation` below).  `retVal` is
`handleMessage`'s boolean result. -/

structure HandleOut where
  handler : Handler
  threw : Bool
  retVal : Option Bool
  calls : List (Option ForceActionData)

/-- The external ajv schema-validity oracle
(`ajv.validateSchema`). -/
abbrev SchemaOracle := JsonValue → Bool

/-- `validateActionSchema` (`api-types.ts` lines 325-335): a missing,
falsy or empty schema passes; otherwise ajv decides.  `true` stands for
`ok`, `false` for `err`. -/
def validateActionSchema (av : SchemaOracle) (a : Action) : Bool :=
  match a.schema with
  | none => true
  | some s =>
    if !jsTruthy s then true
    else if (jsObjectKeys s).length == 0 then true
    else av s

/-- The synchronous prefix of `callOpenAI` (`jippity-handler.ts`
lines 44-58): the state becomes `state/thinking`.  (The method's
leading assert — state is not `state/waiting-for-game-startup` — cannot
fire at any of its call sites, each of which has already excluded that
state.) -/
def callOpenAI (h : Handler) : Handler :=
  { h with state := .thinking }

/-- `registerActions` (lines 250-276): per candidate, skip it when an
action with the same name is already registered or when its schema
fails validation; otherwise append it. -/
def registerActions (av : SchemaOracle) (cur : List Action) :
    List Action → List Action
  | [] => cur
  | a :: rest =>
    if cur.any (fun x => x.name == a.name) then
      registerActions av cur rest
    else if !validateActionSchema av a then
      registerActions av cur rest
    else
      registerActions av (cur ++ [a]) rest

/-- `unregisterActions` (lines 278-281): drop every action whose name
is listed. -/
def unregisterActions (cur : List Action) (action_names : List String) :
    List Action :=
  cur.filter (fun a => !action_names.contains a.name)

/-- The `actionState` argument of
`convertForcedActionMessageToOpenAIMessage`. -/
inductive ActionState where
  | beforeResult
  | afterResult
deriving DecidableEq

/-- `convertForcedActionMessageToOpenAIMessage` (`utils.ts`
lines 48-65): when `ephemeral_context` is truthy or no result has been
received yet, the content opens with the query and, when truthy, the
game state; it always closes with the directive listing the candidate
tool names. -/
def convertForcedActionMessageToOpenAIMessage
    (forcedAction : ForceActionData) (actionState : ActionState) :
    ChatMessage :=
  let contextPart :=
    if forcedAction.ephemeral_context = some true ∨
        actionState = .beforeResult then
      forcedAction.query ++ "\n\n" ++
        (match forcedAction.state with
         | some s => if s = "" then "" else "Game state: " ++ s ++ "\n\n"
         | none => "")
    else ""
  .user (contextPart ++ "You must use one of the following tools: " ++
    String.intercalate ", " forcedAction.action_names)

/-- `handleForcedAction` (lines 283-287): append the converted user
turn and call `callOpenAI()` — note the source passes no argument, so
the started invocation carries no force context. -/
def handleForcedAction (h : Handler) (m : ForceActionData) : HandleOut :=
  let h1 := { h with openaiMessages := h.openaiMessages ++
    [convertForcedActionMessageToOpenAIMessage m .beforeResult] }
  ⟨callOpenAI h1, false, none, [none]⟩

/-- `addContext` (lines 289-302): assert no pending action id (a truthy
id throws), append the user turn, and invoke the model unless
silent. -/
def addContext (h : Handler) (message : String) (silent : Bool) :
    HandleOut :=
  if strTruthy h.pendingActionId then ⟨h, true, none, []⟩
  else
    let h1 := { h with openaiMessages := h.openaiMessages ++ [.user message] }
    if silent then ⟨h1, false, none, []⟩
    else ⟨callOpenAI h1, false, none, [none]⟩

/-- `addActionResult` (lines 304-330): assert a pending state (else
throw); a mismatched id is logged and dropped; a matching id appends
the tool-result turn (whose content records the success flag and, when
truthy, the message), clears the pending action id, and invokes the
model. -/
def addActionResult (h : Handler) (id : String) (success : Bool)
    (message : Option String) : HandleOut :=
  match h.state with
  | .pendingAction a | .pendingForcedAction a _ =>
    if a.id != id then ⟨h, false, none, []⟩
    else
      let contentMessage :=
        match message with
        | some s => if s = "" then none else some s
        | none => none
      let h1 := { h with
        openaiMessages := h.openaiMessages ++ [.tool id success contentMessage]
        pendingActionId := none }
      ⟨callOpenAI h1, false, none, [none]⟩
  | _ => ⟨h, true, none, []⟩

/-- `handleMessage` (lines 186-237): the waiting-for-startup guard
drops every command but `startup`; the pending guard drops every
command but `action/result`, `actions/register` and
`actions/unregister`; then the command dispatches to its handler. -/
def handleMessage (av : SchemaOracle) (h : Handler) (m : Message) :
    HandleOut :=
  if h.state = .waitingForGameStartup ∧ m.command ≠ "startup" then
    ⟨h, false, some false, []⟩
  else if h.state.isPending = true ∧ m.command ≠ "action/result" ∧
      m.command ≠ "actions/register" ∧ m.command ≠ "actions/unregister" then
    ⟨h, false, some false, []⟩
  else
    match m with
    | .startup game =>
      let h1 := { h with
        state := .idle
        game := some game
        actions := []
        openaiMessages := h.openaiMessages ++
          [.user ("You are now playing " ++ game)] }
      ⟨callOpenAI h1, false, some true, [none]⟩
    | .registerActions _ acts =>
      ⟨{ h with actions := registerActions av h.actions acts },
        false, some true, []⟩
    | .unregisterActions _ names =>
      ⟨{ h with actions := unregisterActions h.actions names },
        false, some true, []⟩
    | .context _ message silent =>
      let r := addContext h message silent
      if r.threw then r else { r with retVal := some true }
    | .forceAction _ fd =>
      let r := handleForcedAction h fd
      { r with retVal := some false }
    | .actionResult _ id success message =>
      let r := addActionResult h id success message
      if r.threw then r else { r with retVal := some true }
    | .action _ => ⟨h, false, some false, []⟩

/-- `receiveMessage` (lines 162-184) after the decode stage (`none`
models a failed decode, which only logs).  In the waiting, idle and
pending states the message is handled at once; in every other state it
is appended to the message queue. -/
def receiveMessage (av : SchemaOracle) (h : Handler)
    (decoded : Option Message) : HandleOut :=
  match decoded with
  | none => ⟨h, false, none, []⟩
  | some m =>
    match h.state with
    | .waitingForGameStartup | .idle | .pendingAction _
    | .pendingForcedAction _ _ => handleMessage av h m
    | _ =>
      ⟨{ h with messageQueue := h.messageQueue ++ [m] }, false, none, []⟩

/-- The drain loop of `processMessageQueue` (lines 239-248), recursing
over the queued messages: each iteration polls the head (so the handler
seen by `handleMessage` holds the remaining tail) and handles it; a
thrown assert escapes the loop with the remaining messages still
queued.  The loop itself never stops early on a state change. -/
def drainQueue (av : SchemaOracle) : Handler → List Message → HandleOut
  | h, [] => ⟨h, false, none, []⟩
  | h, m :: rest =>
    let r := handleMessage av { h with messageQueue := rest } m
    if r.threw then r
    else
      let r2 := drainQueue av r.handler rest
      ⟨r2.handler, r2.threw, none, r.calls ++ r2.calls⟩

/-- `processMessageQueue`: drain the current queue. -/
def processMessageQueue (av : SchemaOracle) (h : Handler) : HandleOut :=
  drainQueue av h h.messageQueue

/-! ## Completion outcomes (the `.then`/`.catch` of `callOpenAI`) -/

/-- One completion choice (`response.choices[i]`). -/
structure Choice where
  finish_reason : String
  content : Option String
  tool_calls : List ToolCall

/-- The outcome of the completion-service call: a response with its
choices, or a transport/service failure rejecting the promise. -/
inductive CompletionResult where
  | response (choices : List Choice)
  | failure

/-- Result of delivering a completion outcome: the updated handler and
the actions broadcast via `send`. -/
structure CompleteOut where
  handler : Handler
  sent : List ActionData

/-- Every throwing path inside the `.then` callback, and every rejected
promise, lands in the `.catch` handler, which sets
`state/exiting`. -/
def exitingOnError (h : Handler) : Handler :=
  { h with state := .exiting (some "Error calling OpenAI API") }

/-- The `.then`/`.catch` continuation of `callOpenAI`
(`jippity-handler.ts` lines 85-148), applied when the completion
response for an invocation started with the given `forceActionMessage`
arrives.  A response with other than one choice, a `stop` finish with
falsy content, a `tool_calls` finish with no tool calls, and any other
finish reason all end in `state/exiting` (assert or explicit error plus
the `.catch`).  A `stop` finish returns to `state/idle` without
appending a turn; a `tool_calls` finish keeps only the first tool call,
records the pending action id, enters the pending state (forced exactly
when a force context was passed), appends the assistant turn with the
truncated tool-call list, and broadcasts the action. -/
def completeInvocation (h : Handler)
    (forceActionMessage : Option ForceActionData)
    (res : CompletionResult) : CompleteOut :=
  match res with
  | .failure => ⟨exitingOnError h, []⟩
  | .response choices =>
    match choices with
    | [c] =>
      if c.finish_reason == "stop" then
        if strTruthy c.content then ⟨{ h with state := .idle }, []⟩
        else ⟨exitingOnError h, []⟩
      else if c.finish_reason == "tool_calls" then
        match c.tool_calls with
        | [] => ⟨exitingOnError h, []⟩
        | tc :: _ =>
          let act : ActionData := ⟨tc.id, tc.name, some tc.arguments⟩
          let st :=
            match forceActionMessage with
            | some f => State.pendingForcedAction act f
            | none => State.pendingAction act
          ⟨{ h with
              pendingActionId := some tc.id
              state := st
              openaiMessages := h.openaiMessages ++ [.assistant c.content [tc]] },
            [act]⟩
      else ⟨exitingOnError h, []⟩
    | _ => ⟨exitingOnError h, []⟩

/-! ## The whole system (`index.ts`)

A system is the handler plus the multiset of in-flight completion
invocations, each remembered with the `forceActionMessage` argument it
was started with.  Steps: a websocket message arrives
(`receiveMessage`, any time), the idle run loop drains a non-empty
queue or starts an unprompted invocation on an empty one (`main`,
lines 162-173), or an in-flight invocation completes with some
outcome. -/

structure Sys where
  handler : Handler
  inflight : List (Option ForceActionData)

/-- Fold a method result into the system: the started invocations join
the in-flight list. -/
def applyHandle (s : Sys) (r : HandleOut) : Sys :=
  ⟨r.handler, s.inflight ++ r.calls⟩

inductive Step (av : SchemaOracle) : Sys → Sys → Prop
  | recv (s : Sys) (decoded : Option Message) :
      Step av s (applyHandle s (receiveMessage av s.handler decoded))
  | drain (s : Sys) (hidle : s.handler.state = .idle)
      (hq : s.handler.messageQueue ≠ []) :
      Step av s (applyHandle s (processMessageQueue av s.handler))
  | tick (s : Sys) (hidle : s.handler.state = .idle)
      (hq : s.handler.messageQueue = []) :
      Step av s ⟨callOpenAI s.handler, s.inflight ++ [none]⟩
  | complete (s : Sys) (i : Nat) (hi : i < s.inflight.length)
      (res : CompletionResult) :
      Step av s
        ⟨(completeInvocation s.handler (s.inflight.get ⟨i, hi⟩) res).handler,
          s.inflight.eraseIdx i⟩

/-- Reachable systems: the fresh handler with nothing in flight,
closed under steps. -/
inductive Reach (av : SchemaOracle) : Sys → Prop
  | init : Reach av ⟨initHandler, []⟩
  | step {s s' : Sys} : Reach av s → Step av s s' → Reach av s'

/-! ## Concrete instances and claim-level definitions -/

/-- A concrete schema oracle accepting every schema, for evaluating the
handler on concrete inputs. -/
def avTrue : SchemaOracle := fun _ => true

/-- Sequential FIFO replay: fold `handleMessage` over a message list in
arrival order.  This is the reference semantics the drain loop is
compared against. -/
def seqHandle (av : SchemaOracle) (h : Handler) (ms : List Message) :
    Handler :=
  ms.foldl (fun hh m => (handleMessage av hh m).handler) h

/-- The three operations that mutate the live action set. -/
inductive RegOp where
  | register (batch : List Action)
  | unregister (names : List String)
  | startup

def applyRegOp (av : SchemaOracle) (cur : List Action) : RegOp → List Action
  | .register batch => registerActions av cur batch
  | .unregister names => unregisterActions cur names
  | .startup => []

def applyRegOps (av : SchemaOracle) (cur : List Action)
    (ops : List RegOp) : List Action :=
  ops.foldl (applyRegOp av) cur

/-- The registration rule at the level of names, as the spec words it:
an item is accepted exactly when its name is not already live and its
schema validates; acceptance order follows the batch. -/
def claimRegister (av : SchemaOracle) (cur : List String) :
    List Action → List String
  | [] => cur
  | a :: rest =>
    if cur.any (fun n => n == a.name) || !validateActionSchema av a then
      claimRegister av cur rest
    else claimRegister av (cur ++ [a.name]) rest

/-- The spec's presence rule over an operation sequence: names enter by
valid, non-duplicate registration, leave by unregistration, and are
wiped by a startup. -/
def claimLiveNames (av : SchemaOracle) (cur : List String) :
    List RegOp → List String
  | [] => cur
  | .register batch :: rest =>
    claimLiveNames av (claimRegister av cur batch) rest
  | .unregister names :: rest =>
    claimLiveNames av (cur.filter (fun n => !names.contains n)) rest
  | .startup :: rest => claimLiveNames av [] rest

/-- An idle handler with two non-silent context messages queued. -/
def drainDemo : Handler :=
  { game := some "G"
    actions := []
    openaiMessages := [SYSTEM_MESSAGE]
    pendingActionId := none
    state := .idle
    messageQueue := [.context "G" "first" false, .context "G" "second" false] }

/-- A handler awaiting the result of action id `abc`. -/
def pendingDemo : Handler :=
  { game := some "G"
    actions := []
    openaiMessages := [SYSTEM_MESSAGE]
    pendingActionId := some "abc"
    state := .pendingAction ⟨"abc", "act", none⟩
    messageQueue := [] }

/-- A pending handler with one registered action. -/
def pendingWithActions : Handler :=
  { game := some "G"
    actions := [⟨"jump", "jump somewhere", none⟩]
    openaiMessages := [SYSTEM_MESSAGE]
    pendingActionId := some "abc"
    state := .pendingAction ⟨"abc", "jump", none⟩
    messageQueue := [] }

/-- An idle handler with an empty queue. -/
def idleDemo : Handler :=
  { game := some "G"
    actions := []
    openaiMessages := [SYSTEM_MESSAGE]
    pendingActionId := none
    state := .idle
    messageQueue := [] }

/-- A concrete force request. -/
def forceDemo : ForceActionData :=
  { state := some "board empty"
    query := "choose a move"
    ephemeral_context := none
    action_names := ["move_left", "move_right"] }

/-- A completion outcome selecting one tool call with id `abc`. -/
def toolRes : CompletionResult :=
  .response [⟨"tool_calls", none, [⟨"abc", "act", ""⟩]⟩]

/-- The system after the fresh handler receives `startup`. -/
def sysAfterStartup : Sys :=
  applyHandle ⟨initHandler, []⟩
    (receiveMessage avTrue initHandler (some (.startup "G")))

/-- The system after that startup invocation completes by selecting a
tool call: a reachable pending-action system. -/
def sysPendingAbc : Sys :=
  ⟨(completeInvocation sysAfterStartup.handler
      (sysAfterStartup.inflight.get ⟨0, by decide⟩) toolRes).handler,
    sysAfterStartup.inflight.eraseIdx 0⟩

/-- A stop completion outcome with non-empty content. -/
def stopRes : CompletionResult := .response [⟨"stop", some "ok", []⟩]

/-- A run that leaves a stale pending action id behind, step by step:
startup starts an invocation; two non-silent context messages arrive
while thinking and are queued; the invocation stops, returning to
idle. -/
def sysC9a (av : SchemaOracle) : Sys :=
  applyHandle ⟨initHandler, []⟩
    (receiveMessage av initHandler (some (.startup "G")))

def sysC9b (av : SchemaOracle) : Sys :=
  applyHandle (sysC9a av)
    (receiveMessage av (sysC9a av).handler (some (.context "G" "c1" false)))

def sysC9c (av : SchemaOracle) : Sys :=
  applyHandle (sysC9b av)
    (receiveMessage av (sysC9b av).handler (some (.context "G" "c2" false)))

def sysC9d (av : SchemaOracle) : Sys :=
  ⟨(completeInvocation (sysC9c av).handler
      ((sysC9c av).inflight.get ⟨0, Nat.zero_lt_one⟩) stopRes).handler,
    (sysC9c av).inflight.eraseIdx 0⟩

/-- The idle run loop now drains the queue; the drain does not stop at
the first context (claim C1), so both contexts start invocations: two
are in flight at once. -/
def sysC9e (av : SchemaOracle) : Sys :=
  applyHandle (sysC9d av) (processMessageQueue av (sysC9d av).handler)

/-- The first in-flight invocation selects a tool call: an action is
pending with id `abc`. -/
def sysC9f (av : SchemaOracle) : Sys :=
  ⟨(completeInvocation (sysC9e av).handler
      ((sysC9e av).inflight.get ⟨0, Nat.zero_lt_succ _⟩) toolRes).handler,
    (sysC9e av).inflight.eraseIdx 0⟩

/-- The second in-flight invocation finishes with `stop`: the state
returns to idle, but the `stop` branch never clears `pendingActionId`,
which stays `abc`. -/
def sysC9stale (av : SchemaOracle) : Sys :=
  ⟨(completeInvocation (sysC9f av).handler
      ((sysC9f av).inflight.get ⟨0, Nat.zero_lt_one⟩) stopRes).handler,
    (sysC9f av).inflight.eraseIdx 0⟩

/-! ## Infrastructure lemmas -/

set_option maxHeartbeats 1000000 in
/-- `handleMessage` never touches the message queue: only
`receiveMessage` enqueues. -/
theorem handleMessage_messageQueue (av : SchemaOracle) (h : Handler)
    (m : Message) :
    (handleMessage av h m).handler.messageQueue = h.messageQueue := by
  obtain ⟨g, acts, msgs, pid, st, mq⟩ := h
  cases m <;> cases st <;> first
    | rfl
    | (simp only [handleMessage, addContext, addActionResult,
        handleForcedAction, callOpenAI, Message.command, State.isPending]
       split_ifs <;> rfl)

set_option maxHeartbeats 1000000 in
/-- The behaviour of `handleMessage` does not depend on the queue
either: handling with a rewritten queue only rewrites the queue of the
result. -/
theorem handleMessage_setQueue (av : SchemaOracle) (h : Handler)
    (m : Message) (q : List Message) :
    handleMessage av { h with messageQueue := q } m =
      { handleMessage av h m with
        handler := { (handleMessage av h m).handler with messageQueue := q } } := by
  obtain ⟨g, acts, msgs, pid, st, mq⟩ := h
  cases m <;> cases st <;> first
    | rfl
    | (simp only [handleMessage, addContext, addActionResult,
        handleForcedAction, callOpenAI, Message.command, State.isPending]
       split_ifs <;> rfl)

/-- Preservation of a handler predicate along the drain loop. -/
theorem drainQueue_preserves (av : SchemaOracle) (P : Handler → Prop)
    (hqueue : ∀ h q, P h → P { h with messageQueue := q })
    (hhandle : ∀ h m, P h → P (handleMessage av h m).handler) :
    ∀ (q : List Message) (h : Handler), P h → P (drainQueue av h q).handler
  | [], _, hp => hp
  | m :: rest, h, hp => by
    dsimp only [drainQueue]
    split
    · exact hhandle _ m (hqueue h rest hp)
    · exact drainQueue_preserves av P hqueue hhandle rest _
        (hhandle _ m (hqueue h rest hp))

/-- Induction principle for reachable systems: a handler predicate
preserved by every primitive handler transformation holds at every
reachable system. -/
theorem Reach.invariant (av : SchemaOracle) (P : Handler → Prop)
    (hinit : P initHandler)
    (hqueue : ∀ h q, P h → P { h with messageQueue := q })
    (hhandle : ∀ h m, P h → P (handleMessage av h m).handler)
    (hcall : ∀ h, P h → P (callOpenAI h))
    (hcomplete : ∀ h f res, P h → P (completeInvocation h f res).handler) :
    ∀ s, Reach av s → P s.handler := by
  intro s hr
  induction hr with
  | init => exact hinit
  | step _ hstep ih =>
    cases hstep with
    | recv dec =>
      dsimp only [applyHandle]
      cases dec with
      | none => exact ih
      | some m =>
        unfold receiveMessage
        dsimp only
        split <;> first
          | exact hhandle _ _ ih
          | exact hqueue _ _ ih
    | drain hidle hq =>
      exact drainQueue_preserves av P hqueue hhandle _ _ ih
    | tick hidle hq => exact hcall _ ih
    | complete i hi res => exact hcomplete _ _ _ ih

set_option maxHeartbeats 1000000 in
/-- `handleMessage` only ever appends to the conversation log. -/
theorem handleMessage_openaiMessages (av : SchemaOracle) (h : Handler)
    (m : Message) :
    ∃ t, (handleMessage av h m).handler.openaiMessages =
      h.openaiMessages ++ t := by
  obtain ⟨g, acts, msgs, pid, st, mq⟩ := h
  cases m <;> cases st <;>
    simp only [handleMessage, addContext, addActionResult,
      handleForcedAction, callOpenAI, Message.command, State.isPending] <;>
    split_ifs <;>
    first
      | exact ⟨[], (List.append_nil _).symm⟩
      | exact ⟨_, rfl⟩

/-- `receiveMessage` only ever appends to the conversation log. -/
theorem receiveMessage_openaiMessages (av : SchemaOracle) (h : Handler)
    (dec : Option Message) :
    ∃ t, (receiveMessage av h dec).handler.openaiMessages =
      h.openaiMessages ++ t := by
  unfold receiveMessage
  cases dec with
  | none => exact ⟨[], (List.append_nil _).symm⟩
  | some m =>
    dsimp only
    split <;>
      first
        | exact handleMessage_openaiMessages av h m
        | exact ⟨[], (List.append_nil _).symm⟩

/-- The drain loop only ever appends to the conversation log. -/
theorem drainQueue_openaiMessages (av : SchemaOracle) :
    ∀ (q : List Message) (h : Handler),
      ∃ t, (drainQueue av h q).handler.openaiMessages =
        h.openaiMessages ++ t
  | [], h => ⟨[], by simp [drainQueue]⟩
  | m :: rest, h => by
    dsimp only [drainQueue]
    obtain ⟨t1, h1⟩ :=
      handleMessage_openaiMessages av { h with messageQueue := rest } m
    split
    · exact ⟨t1, h1⟩
    · obtain ⟨t2, h2⟩ := drainQueue_openaiMessages av rest
        (handleMessage av { h with messageQueue := rest } m).handler
      exact ⟨t1 ++ t2, by rw [h2, h1]; simp⟩

/-- The completion continuation only ever appends to the conversation
log. -/
theorem completeInvocation_openaiMessages (h : Handler)
    (f : Option ForceActionData) (res : CompletionResult) :
    ∃ t, (completeInvocation h f res).handler.openaiMessages =
      h.openaiMessages ++ t := by
  unfold completeInvocation exitingOnError
  repeat' split
  all_goals first
    | exact ⟨[], (List.append_nil _).symm⟩
    | exact ⟨_, rfl⟩

/-! ## Codec lemmas -/

/-- The ten `Object.prototype` member names whose bare strict-mode call
throws. -/
theorem protoMember_throws_eq (key : String)
    (h : protoMember key = .throws) :
    key = "toLocaleString" ∨ key = "valueOf" ∨ key = "hasOwnProperty" ∨
    key = "isPrototypeOf" ∨ key = "propertyIsEnumerable" ∨
    key = "__defineGetter__" ∨ key = "__defineSetter__" ∨
    key = "__lookupGetter__" ∨ key = "__lookupSetter__" ∨
    key = "__proto__" := by
  unfold protoMember at h
  split at h <;> simp_all

/-- `ToString` of a string value is the string itself (unfolds the
well-founded mutual definition). -/
theorem jsToPropertyKey_str (s : String) :
    jsToPropertyKey (.str s) = s := by
  simp [jsToPropertyKey]

/-! ## The claims -/

/-- Claim C8 (code bug).  The claim says `deserializeMessage` is total
and never throws: the missing-discriminator error covers a parsed
`null`, and every command outside the seven recognized kinds yields
the unknown-kind error.  In fact the function throws exactly when the
parsed value is JSON `null` (reading `.command` off `null` throws) or
when the truthy command names one of the throwing `Object.prototype`
members that the `in` check lets through (for example
`hasOwnProperty`); and a command naming `toString` is not rejected as
an unknown kind at all — the inherited member plays the validator,
returns a truthy value, and the garbage message is accepted as `ok`.
A failed parse does return the not-JSON error. -/
theorem deserializeMessage_throw_characterization (v : JsonValue) :
    (deserializeMessage (some v) = DeserializeOutcome.thrown ↔
      v = JsonValue.null ∨
      ∃ cv, getProperty v "command" = some cv ∧ jsTruthy cv = true ∧
        protoMember (jsToPropertyKey cv) = .throws) ∧
    deserializeMessage none = DeserializeOutcome.errNotJson ∧
    deserializeMessage
        (some (JsonValue.obj [("command", JsonValue.str "toString")])) =
      DeserializeOutcome.ok
        (JsonValue.obj [("command", JsonValue.str "toString")]) ∧
    deserializeMessage
        (some (JsonValue.obj [("command", JsonValue.str "hasOwnProperty")])) =
      DeserializeOutcome.thrown := by
  refine ⟨⟨?_, ?_⟩, rfl, ?_, ?_⟩
  · cases v with
    | null => exact fun _ => Or.inl rfl
    | obj fields =>
      intro hth
      simp only [deserializeMessage, getProperty] at hth
      rcases hcv : fields.reverse.lookup "command" with _ | cv <;>
        rw [hcv] at hth
      · exact DeserializeOutcome.noConfusion hth
      · dsimp only at hth
        cases htr : jsTruthy cv with
        | false => rw [htr] at hth; simp at hth
        | true =>
          rw [htr, if_neg (by simp)] at hth
          rcases hown : validatorsList.lookup (jsToPropertyKey cv) with
            _ | validator <;> rw [hown] at hth <;> dsimp only at hth
          · cases hpm : protoMember (jsToPropertyKey cv) with
            | truthy => rw [hpm] at hth; exact DeserializeOutcome.noConfusion hth
            | throws => exact Or.inr ⟨cv, hcv, htr, hpm⟩
            | absent => rw [hpm] at hth; exact DeserializeOutcome.noConfusion hth
          · split_ifs at hth <;> exact DeserializeOutcome.noConfusion hth
    | bool b => intro hth; exact absurd hth (by simp [deserializeMessage, getProperty])
    | num n => intro hth; exact absurd hth (by simp [deserializeMessage, getProperty])
    | str s => intro hth; exact absurd hth (by simp [deserializeMessage, getProperty])
    | arr items => intro hth; exact absurd hth (by simp [deserializeMessage, getProperty])
  · rintro (rfl | ⟨cv, hcv, htr, hpm⟩)
    · rfl
    · cases v with
      | obj fields =>
        have hcv2 : fields.reverse.lookup "command" = some cv := hcv
        simp only [deserializeMessage, getProperty]
        rw [hcv2]
        dsimp only
        rw [htr, if_neg (by simp)]
        rcases protoMember_throws_eq _ hpm with
          hk | hk | hk | hk | hk | hk | hk | hk | hk | hk <;> rw [hk] <;> rfl
      | null => exact absurd hcv (by simp [getProperty])
      | bool b => exact absurd hcv (by simp [getProperty])
      | num n => exact absurd hcv (by simp [getProperty])
      | str s => exact absurd hcv (by simp [getProperty])
      | arr items => exact absurd hcv (by simp [getProperty])
  · simp [deserializeMessage, getProperty, jsToPropertyKey_str,
      validatorsList, protoMember, List.lookup]
    decide
  · simp [deserializeMessage, getProperty, jsToPropertyKey_str,
      validatorsList, protoMember, List.lookup]
    decide

/-- Claim C7 (confirmed).  The user turn built from a forced-action
payload always ends with the directive naming the candidate action
list; it opens with the query (and, when non-empty, the game state)
exactly when `ephemeral_context` is `true` or no action result has
been received yet (`before-result`), and otherwise carries the
directive alone. -/
theorem forcedActionMessage_content (f : ForceActionData)
    (s : ActionState) :
    (∃ body, convertForcedActionMessageToOpenAIMessage f s =
        .user (body ++ "You must use one of the following tools: " ++
          String.intercalate ", " f.action_names)) ∧
    ((f.ephemeral_context = some true ∨ s = .beforeResult) →
      convertForcedActionMessageToOpenAIMessage f s =
        .user (f.query ++ "\n\n" ++
          (match f.state with
           | some st => if st = "" then "" else "Game state: " ++ st ++ "\n\n"
           | none => "") ++
          "You must use one of the following tools: " ++
          String.intercalate ", " f.action_names)) ∧
    (¬(f.ephemeral_context = some true ∨ s = .beforeResult) →
      convertForcedActionMessageToOpenAIMessage f s =
        .user ("You must use one of the following tools: " ++
          String.intercalate ", " f.action_names)) := by
  by_cases hc : f.ephemeral_context = some true ∨ s = .beforeResult
  · exact ⟨⟨f.query ++ "\n\n" ++
        (match f.state with
         | some st => if st = "" then "" else "Game state: " ++ st ++ "\n\n"
         | none => ""),
        by simp only [convertForcedActionMessageToOpenAIMessage, if_pos hc]⟩,
      fun _ => by simp only [convertForcedActionMessageToOpenAIMessage, if_pos hc],
      fun hn => absurd hc hn⟩
  · exact ⟨⟨"", by
        simp only [convertForcedActionMessageToOpenAIMessage, if_neg hc]⟩,
      fun hy => absurd hy hc,
      fun _ => by
        simp only [convertForcedActionMessageToOpenAIMessage, if_neg hc]
        rfl⟩

/-- Claim C7 witness: at a concrete non-ephemeral request after a
result, the turn carries the directive alone. -/
theorem forcedActionMessage_content_witness :
    convertForcedActionMessageToOpenAIMessage forceDemo .afterResult =
      .user ("You must use one of the following tools: " ++
        String.intercalate ", " ["move_left", "move_right"]) :=
  (forcedActionMessage_content forceDemo .afterResult).2.2 (by decide)

/-- Claim C6 (code bug).  The claim says handling `actions/force`
records the force request and, when the completion selects a tool call,
produces `PendingForcedAction` carrying it, with tools restricted to
the candidates.  In fact `handleForcedAction` calls `callOpenAI()` with
no argument: the invocation it starts carries no force context, so the
tool-selecting completion lands in plain `PendingAction` and the
request is lost (and `callOpenAI` builds no tool list from the
candidates at all — it references an undefined `tools` binding). -/
theorem forcedAction_context_lost :
    (handleMessage avTrue idleDemo (.forceAction "G" forceDemo)).calls =
      [none] ∧
    (completeInvocation
        (handleMessage avTrue idleDemo (.forceAction "G" forceDemo)).handler
        none toolRes).handler.state = .pendingAction ⟨"abc", "act", some ""⟩ ∧
    (handleMessage avTrue idleDemo
        (.forceAction "G" forceDemo)).handler.openaiMessages =
      idleDemo.openaiMessages ++
        [.user ("choose a move" ++ "\n\n" ++
          ("Game state: " ++ "board empty" ++ "\n\n") ++
          "You must use one of the following tools: " ++
          String.intercalate ", " ["move_left", "move_right"])] :=
  ⟨rfl, rfl, rfl⟩

/-- Claim C1, counterexample.  With two queued non-silent context
messages, handling the first already produces `state/thinking`, yet the
drain continues: the queue ends empty and both messages started
invocations, where the claim says the second message should have stayed
queued for the next idle window. -/
theorem drain_not_halting_cex :
    (handleMessage avTrue
        { drainDemo with messageQueue := [Message.context "G" "second" false] }
        (Message.context "G" "first" false)).handler.state = State.thinking ∧
    (processMessageQueue avTrue drainDemo).handler.messageQueue = [] ∧
    (processMessageQueue avTrue drainDemo).calls = [none, none] ∧
    (processMessageQueue avTrue drainDemo).handler.openaiMessages =
      [SYSTEM_MESSAGE, .user "first", .user "second"] :=
  ⟨rfl, rfl, rfl, rfl⟩

/-- Claim C2, counterexample.  A context message received while the
state is `PendingAction` is dropped unchanged — it is not appended to
the message queue, which stays empty. -/
theorem pending_context_dropped_cex :
    receiveMessage avTrue pendingDemo (some (.context "G" "hello" false)) =
      ⟨pendingDemo, false, some false, []⟩ ∧
    pendingDemo.messageQueue = [] :=
  ⟨rfl, rfl⟩

/-- Claim C5, counterexample.  A startup message received while an
action is pending is dropped by the pending guard: the action set is
not cleared and no turn is appended. -/
theorem startup_while_pending_cex :
    handleMessage avTrue pendingWithActions (.startup "NewGame") =
      ⟨pendingWithActions, false, some false, []⟩ ∧
    pendingWithActions.actions = [⟨"jump", "jump somewhere", none⟩] :=
  ⟨rfl, rfl⟩

/-- Claim C9, counterexample.  A context message received while an
action is pending is dropped by the pending guard with no thrown
assertion and no appended turn — where the claim says it is rejected
with a fatal assertion failure. -/
theorem pending_context_no_assertion_cex :
    (receiveMessage avTrue pendingDemo (some (.context "G" "note" true))).threw =
      false ∧
    (receiveMessage avTrue pendingDemo (some (.context "G" "note" true))).handler =
      pendingDemo :=
  ⟨rfl, rfl⟩

/-- `seqHandle` is insensitive to the queue field, like
`handleMessage`. -/
theorem seqHandle_setQueue (av : SchemaOracle) :
    ∀ (ms : List Message) (h : Handler) (q : List Message),
      seqHandle av { h with messageQueue := q } ms =
        { seqHandle av h ms with messageQueue := q }
  | [], _, _ => rfl
  | m :: rest, h, q => by
    dsimp only [seqHandle, List.foldl]
    rw [handleMessage_setQueue]
    exact seqHandle_setQueue av rest (handleMessage av h m).handler q

/-- The drain loop, when no handler assert throws, is the sequential
FIFO replay of the whole queue, ending with an empty queue. -/
theorem drainQueue_eq_seqHandle (av : SchemaOracle) :
    ∀ (q : List Message) (h : Handler), h.messageQueue = q →
      (drainQueue av h q).threw = false →
      (drainQueue av h q).handler =
        { seqHandle av h q with messageQueue := [] }
  | [], h, hq, _ => by
    obtain ⟨g, acts, msgs, pid, st, mq⟩ := h
    cases hq
    rfl
  | m :: rest, h, hq, hok => by
    have hsq := handleMessage_setQueue av h m rest
    dsimp only [drainQueue] at hok ⊢
    rw [hsq] at hok ⊢
    dsimp only at hok ⊢
    by_cases hb : (handleMessage av h m).threw = true
    · rw [if_pos hb] at hok
      dsimp only at hok
      simp [hb] at hok
    · rw [if_neg hb] at hok ⊢
      have hIH := drainQueue_eq_seqHandle av rest
        { (handleMessage av h m).handler with messageQueue := rest } rfl hok
      rw [hIH, seqHandle_setQueue]
      dsimp only [seqHandle, List.foldl]

/-- Claim C1 (amended).  Queued messages are processed one at a time in
original arrival (FIFO) order, but draining does not halt when a
handled message produces a new thinking state: absent a thrown handler
assert, the drain is exactly the sequential replay of the whole queue
by the ordinary transition rules, and it always ends with an empty
queue (a pending state cannot arise during the synchronous drain, and
a thinking state does not stop it). -/
theorem drain_fifo_until_empty (av : SchemaOracle) (h : Handler)
    (hok : (processMessageQueue av h).threw = false) :
    (processMessageQueue av h).handler =
      { seqHandle av h h.messageQueue with messageQueue := [] } :=
  drainQueue_eq_seqHandle av h.messageQueue h rfl hok

/-- Claim C1 witness: the amended drain equality evaluated at the
concrete two-message queue. -/
theorem drain_fifo_until_empty_witness :
    (processMessageQueue avTrue drainDemo).handler =
      { seqHandle avTrue drainDemo drainDemo.messageQueue with
        messageQueue := [] } :=
  drain_fifo_until_empty avTrue drainDemo rfl

/-- Claim C2 (amended).  While the state is `PendingAction` or
`PendingForcedAction`, `receiveMessage` hands the message to
`handleMessage` synchronously (never enqueues — `handleMessage` leaves
the queue untouched), only `action/result`, `actions/register` and
`actions/unregister` are processed, and every other message kind is
logged and dropped with the handler unchanged, not appended to the
Pending-Message Queue. -/
theorem pending_reception (av : SchemaOracle) (h : Handler) (m : Message)
    (hp : h.state.isPending = true) :
    receiveMessage av h (some m) = handleMessage av h m ∧
    (handleMessage av h m).handler.messageQueue = h.messageQueue ∧
    (m.command ≠ "action/result" → m.command ≠ "actions/register" →
      m.command ≠ "actions/unregister" →
      handleMessage av h m = ⟨h, false, some false, []⟩) := by
  refine ⟨?_, handleMessage_messageQueue av h m, ?_⟩
  · unfold receiveMessage
    obtain ⟨g, acts, msgs, pid, st, mq⟩ := h
    cases st <;> first
      | rfl
      | simp [State.isPending] at hp
  · intro h1 h2 h3
    obtain ⟨g, acts, msgs, pid, st, mq⟩ := h
    cases st <;> first
      | (simp [handleMessage, State.isPending, h1, h2, h3]; done)
      | (simp [State.isPending] at hp; done)

/-- Claim C2 witness: a context message received in a pending state is
dropped with the handler unchanged. -/
theorem pending_reception_witness :
    handleMessage avTrue pendingDemo (.context "G" "hello" true) =
      ⟨pendingDemo, false, some false, []⟩ :=
  (pending_reception avTrue pendingDemo (.context "G" "hello" true) rfl).2.2
    (by decide) (by decide) (by decide)

/-- Claim C5 (amended).  Handling a startup message in any non-pending
state resets the action set to empty, records the game identity,
appends exactly one user turn announcing the new game, and starts a
completion invocation; but in `PendingAction` and
`PendingForcedAction` the startup message is dropped by the pending
guard with no effect at all. -/
theorem startup_reset (av : SchemaOracle) (h : Handler) (g : String) :
    (h.state.isPending = false →
      handleMessage av h (.startup g) =
        ⟨{ h with
            state := .thinking
            game := some g
            actions := []
            openaiMessages := h.openaiMessages ++
              [.user ("You are now playing " ++ g)] },
          false, some true, [none]⟩) ∧
    (h.state.isPending = true →
      handleMessage av h (.startup g) = ⟨h, false, some false, []⟩) := by
  obtain ⟨gm, acts, msgs, pid, st, mq⟩ := h
  constructor
  · intro hnp
    cases st <;> first
      | rfl
      | (simp [State.isPending] at hnp; done)
  · intro hp
    cases st <;> first
      | rfl
      | (simp [State.isPending] at hp; done)

/-- Claim C5 witness: startup from idle resets the action set and
starts thinking. -/
theorem startup_reset_witness :
    handleMessage avTrue idleDemo (.startup "Zomboid") =
      ⟨{ idleDemo with
          state := .thinking
          game := some "Zomboid"
          actions := []
          openaiMessages := idleDemo.openaiMessages ++
            [.user ("You are now playing " ++ "Zomboid")] },
        false, some true, [none]⟩ :=
  (startup_reset avTrue idleDemo "Zomboid").1 rfl

/-- Claim C9 (amended).  A context message received while the state is
`PendingAction` or `PendingForcedAction` is dropped by the pending
guard with a logged error and no thrown assertion; handling it in any
other state than the startup-waiting one appends exactly one user
turn with the message text and starts an invocation if and only if
`silent` is false — provided the `pendingActionId` field is falsy;
when a truthy pending action id is still set, the fatal assert inside
`addContext` throws.  The throwing case is reachable through message
reception alone: a `stop` completion returns to idle without clearing
`pendingActionId`, so after the drain has started two invocations at
once, a tool-call completion followed by a stop completion leaves an
idle handler with a stale truthy id, and a received context message
then throws (last conjunct). -/
theorem context_handling (av : SchemaOracle) (h : Handler)
    (g msg : String) (silent : Bool) :
    (h.state.isPending = true →
      handleMessage av h (.context g msg silent) =
        ⟨h, false, some false, []⟩) ∧
    (h.state = .waitingForGameStartup →
      handleMessage av h (.context g msg silent) =
        ⟨h, false, some false, []⟩) ∧
    (h.state.isPending = false → h.state ≠ .waitingForGameStartup →
      strTruthy h.pendingActionId = false →
      handleMessage av h (.context g msg silent) =
        ⟨{ h with
            openaiMessages := h.openaiMessages ++ [.user msg]
            state := if silent then h.state else .thinking },
          false, some true, if silent then [] else [none]⟩) ∧
    (h.state.isPending = false → h.state ≠ .waitingForGameStartup →
      strTruthy h.pendingActionId = true →
      handleMessage av h (.context g msg silent) = ⟨h, true, none, []⟩) ∧
    (∃ s, Reach av s ∧ s.handler.state = .idle ∧
      strTruthy s.handler.pendingActionId = true ∧
      ∀ (g2 msg2 : String) (silent2 : Bool),
        (receiveMessage av s.handler
          (some (.context g2 msg2 silent2))).threw = true) := by
  obtain ⟨gm, acts, msgs, pid, st, mq⟩ := h
  refine ⟨fun hp => ?_, fun hw => ?_, fun hnp hnw hpid => ?_,
    fun hnp hnw hpid => ?_, ?_⟩
  · cases st <;> first
      | rfl
      | (simp [State.isPending] at hp; done)
  · cases st <;> first
      | rfl
      | (simp at hw; done)
  · dsimp only at hnp hnw hpid ⊢
    cases st <;> first
      | ((cases silent <;>
          simp [handleMessage, addContext, callOpenAI, hpid,
            State.isPending, Message.command]); done)
      | (simp [State.isPending] at hnp; done)
      | (simp at hnw; done)
  · dsimp only at hnp hnw hpid ⊢
    cases st <;> first
      | (simp [handleMessage, addContext, hpid, State.isPending,
          Message.command]; done)
      | (simp [State.isPending] at hnp; done)
      | (simp at hnw; done)
  · refine ⟨sysC9stale av, ?_, rfl, rfl, fun g2 msg2 silent2 => rfl⟩
    exact Reach.step (Reach.step (Reach.step (Reach.step (Reach.step
      (Reach.step (Reach.step Reach.init
        (Step.recv _ (some (.startup "G"))))
        (Step.recv _ (some (.context "G" "c1" false))))
        (Step.recv _ (some (.context "G" "c2" false))))
        (Step.complete (sysC9c av) 0 Nat.zero_lt_one stopRes))
        (Step.drain (sysC9d av) rfl (List.cons_ne_nil _ _)))
        (Step.complete (sysC9e av) 0 (Nat.zero_lt_succ _) toolRes))
        (Step.complete (sysC9f av) 0 Nat.zero_lt_one stopRes)

/-- Claim C9 witness: a silent context while idle appends the turn and
starts nothing. -/
theorem context_handling_witness :
    handleMessage avTrue idleDemo (.context "G" "hi" true) =
      ⟨{ idleDemo with
          openaiMessages := idleDemo.openaiMessages ++ [.user "hi"] },
        false, some true, []⟩ :=
  (context_handling avTrue idleDemo "G" "hi" true).2.2.1 rfl (by decide) rfl

set_option maxHeartbeats 1000000 in
/-- `handleMessage` preserves the consistency between the pending state
and the pending action id. -/
theorem handleMessage_pendingConsistent (av : SchemaOracle) (h : Handler)
    (m : Message)
    (hp : ∀ a, h.state.pendingPayload = some a →
      h.pendingActionId = some a.id) :
    ∀ a, (handleMessage av h m).handler.state.pendingPayload = some a →
      (handleMessage av h m).handler.pendingActionId = some a.id := by
  obtain ⟨g, acts, msgs, pid, st, mq⟩ := h
  cases m <;> cases st <;>
    simp only [handleMessage, addContext, addActionResult,
      handleForcedAction, callOpenAI, Message.command, State.isPending,
      State.pendingPayload] at hp ⊢ <;>
    split_ifs <;>
    first
      | exact hp
      | (intro a ha; simp [State.pendingPayload] at ha)
      | simp [State.pendingPayload]

/-- The completion continuation preserves the consistency between the
pending state and the pending action id: the tool-calls branch writes
the same id into both. -/
theorem completeInvocation_pendingConsistent (h : Handler)
    (f : Option ForceActionData) (res : CompletionResult)
    (hp : ∀ a, h.state.pendingPayload = some a →
      h.pendingActionId = some a.id) :
    ∀ a, (completeInvocation h f res).handler.state.pendingPayload =
        some a →
      (completeInvocation h f res).handler.pendingActionId = some a.id := by
  intro a
  cases res with
  | failure =>
    intro ha
    exact absurd ha (by simp [completeInvocation, exitingOnError,
      State.pendingPayload])
  | response choices =>
    rcases choices with _ | ⟨c, _ | ⟨c2, cs⟩⟩
    · intro ha
      exact absurd ha (by simp [completeInvocation, exitingOnError,
        State.pendingPayload])
    · dsimp only [completeInvocation, exitingOnError]
      split_ifs with h1 h2
      · simp [State.pendingPayload]
      · simp [State.pendingPayload]
      · split
        · simp [State.pendingPayload]
        · split
          · intro ha
            simp only [State.pendingPayload, Option.some.injEq] at ha
            subst ha
            rfl
          · intro ha
            simp only [State.pendingPayload, Option.some.injEq] at ha
            subst ha
            rfl
      · simp [State.pendingPayload]
    · intro ha
      exact absurd ha (by simp [completeInvocation, exitingOnError,
        State.pendingPayload])

/-- Claim C3 (confirmed).  In every reachable system the pending action
id recorded by the handler is exactly the id of the single action
carried by the pending state (at most one pending action id is live at
any time); handling an `action-result` whose id differs from the
pending action's id leaves the handler completely unchanged (logged
and dropped — no turn, no state change, no invocation); and handling a
matching `action-result` appends one tool-result turn carrying the
success flag and the (truthy) optional message, clears the pending
action id, and starts a completion invocation (the state becomes
thinking). -/
theorem pending_action_protocol (av : SchemaOracle) :
    (∀ s, Reach av s → ∀ a, s.handler.state.pendingPayload = some a →
      s.handler.pendingActionId = some a.id) ∧
    (∀ (h : Handler) (g idv : String) (success : Bool)
        (msg : Option String) (a : ActionData),
      h.state.pendingPayload = some a → a.id ≠ idv →
      handleMessage av h (.actionResult g idv success msg) =
        ⟨h, false, some true, []⟩) ∧
    (∀ (h : Handler) (g : String) (success : Bool) (msg : Option String)
        (a : ActionData),
      h.state.pendingPayload = some a →
      handleMessage av h (.actionResult g a.id success msg) =
        ⟨{ h with
            openaiMessages := h.openaiMessages ++
              [.tool a.id success (match msg with
                | some s => if s = "" then none else some s
                | none => none)]
            pendingActionId := none
            state := .thinking },
          false, some true, [none]⟩) := by
  refine ⟨Reach.invariant av
      (fun hh => ∀ a, hh.state.pendingPayload = some a →
        hh.pendingActionId = some a.id)
      (fun a ha => nomatch ha)
      (fun h q hp => hp)
      (handleMessage_pendingConsistent av)
      (fun h hp a ha => nomatch ha)
      completeInvocation_pendingConsistent, ?_, ?_⟩
  · intro h g idv success msg a hp hne
    obtain ⟨gm, acts, msgs, pid, st, mq⟩ := h
    cases st <;> first
      | (simp [State.pendingPayload] at hp; done)
      | (simp only [State.pendingPayload, Option.some.injEq] at hp
         subst hp
         simp [handleMessage, addActionResult, State.isPending,
           Message.command, hne])
  · intro h g success msg a hp
    obtain ⟨gm, acts, msgs, pid, st, mq⟩ := h
    cases st <;> first
      | (simp [State.pendingPayload] at hp; done)
      | (simp only [State.pendingPayload, Option.some.injEq] at hp
         subst hp
         simp [handleMessage, addActionResult, State.isPending,
           Message.command, callOpenAI])

/-- Claim C3 witness: the invariant at a concrete reachable
pending-action system, a mismatched result dropped unchanged, and a
matching result appending the tool turn and clearing the id. -/
theorem pending_action_protocol_witness :
    sysPendingAbc.handler.pendingActionId = some "abc" ∧
    handleMessage avTrue pendingDemo (.actionResult "G" "wrong" true none) =
      ⟨pendingDemo, false, some true, []⟩ ∧
    handleMessage avTrue pendingDemo (.actionResult "G" "abc" true none) =
      ⟨{ pendingDemo with
          openaiMessages := pendingDemo.openaiMessages ++
            [.tool "abc" true none]
          pendingActionId := none
          state := .thinking },
        false, some true, [none]⟩ := by
  refine ⟨?_, ?_, ?_⟩
  · exact (pending_action_protocol avTrue).1 sysPendingAbc
      (Reach.step
        (Reach.step Reach.init (Step.recv _ (some (.startup "G"))))
        (Step.complete sysAfterStartup 0 (by decide) toolRes))
      ⟨"abc", "act", some ""⟩ rfl
  · exact (pending_action_protocol avTrue).2.1 pendingDemo "G" "wrong"
      true none ⟨"abc", "act", none⟩ rfl (by decide)
  · exact (pending_action_protocol avTrue).2.2 pendingDemo "G" true none
      ⟨"abc", "act", none⟩ rfl

/-- `registerActions`, viewed through the action names, is exactly the
claim-level acceptance rule. -/
theorem registerActions_names (av : SchemaOracle) :
    ∀ (batch cur : List Action),
      (registerActions av cur batch).map Action.name =
        claimRegister av (cur.map Action.name) batch
  | [], _ => rfl
  | a :: rest, cur => by
    dsimp only [registerActions, claimRegister]
    have hmap : ((cur.map Action.name).any fun n => n == a.name) =
        (cur.any fun x => x.name == a.name) := by
      induction cur with
      | nil => rfl
      | cons x xs ih => simp [ih]
    by_cases hdup : (cur.any fun x => x.name == a.name) = true
    · have hc2 : (((cur.map Action.name).any fun n => n == a.name) ||
          !validateActionSchema av a) = true := by
        rw [hmap, hdup]
        rfl
      rw [if_pos hdup, if_pos hc2]
      exact registerActions_names av rest cur
    · by_cases hval : validateActionSchema av a = true
      · have hc2 : ¬ ((((cur.map Action.name).any fun n => n == a.name) ||
            !validateActionSchema av a) = true) := by
          simp [hmap, hdup, hval]
        have hc3 : ¬ ((!validateActionSchema av a) = true) := by
          simp [hval]
        rw [if_neg hdup, if_neg hc3, if_neg hc2]
        have hIH := registerActions_names av rest (cur ++ [a])
        rw [hIH, List.map_append]
        rfl
      · have hc2 : ((((cur.map Action.name).any fun n => n == a.name) ||
            !validateActionSchema av a) = true) := by
          simp [hmap, hdup, hval]
        have hc3 : ((!validateActionSchema av a) = true) := by
          simp [hval]
        rw [if_neg hdup, if_pos hc3, if_pos hc2]
        exact registerActions_names av rest cur

/-- `unregisterActions`, viewed through the action names, filters the
listed names out. -/
theorem unregisterActions_names (cur : List Action)
    (names : List String) :
    (unregisterActions cur names).map Action.name =
      (cur.map Action.name).filter (fun n => !names.contains n) := by
  unfold unregisterActions
  rw [List.filter_map]
  rfl

/-- The whole operation sequence, viewed through the action names, is
exactly the claim-level presence rule. -/
theorem applyRegOps_names (av : SchemaOracle) :
    ∀ (ops : List RegOp) (cur : List Action),
      (applyRegOps av cur ops).map Action.name =
        claimLiveNames av (cur.map Action.name) ops
  | [], _ => rfl
  | .register batch :: rest, cur => by
    dsimp only [applyRegOps, List.foldl, applyRegOp, claimLiveNames]
    rw [← registerActions_names av batch cur]
    exact applyRegOps_names av rest (registerActions av cur batch)
  | .unregister names :: rest, cur => by
    dsimp only [applyRegOps, List.foldl, applyRegOp, claimLiveNames]
    rw [← unregisterActions_names cur names]
    exact applyRegOps_names av rest (unregisterActions cur names)
  | .startup :: rest, cur => by
    dsimp only [applyRegOps, List.foldl, applyRegOp, claimLiveNames]
    exact applyRegOps_names av rest []

/-- `registerActions` keeps the names of the live set free of
duplicates: a candidate whose name is already present is skipped. -/
theorem registerActions_nodup (av : SchemaOracle) :
    ∀ (batch cur : List Action), (cur.map Action.name).Nodup →
      ((registerActions av cur batch).map Action.name).Nodup
  | [], _, hn => hn
  | a :: rest, cur, hn => by
    dsimp only [registerActions]
    split_ifs with h1 h2
    · exact registerActions_nodup av rest cur hn
    · exact registerActions_nodup av rest cur hn
    · refine registerActions_nodup av rest (cur ++ [a]) ?_
      rw [List.map_append]
      refine hn.append (List.nodup_singleton _) ?_
      intro x hx hxa
      simp only [List.mem_map] at hx
      obtain ⟨y, hy, rfl⟩ := hx
      simp only [List.map_singleton, List.mem_singleton] at hxa
      simp only [List.any_eq_true, beq_iff_eq, not_exists] at h1
      exact h1 y ⟨hy, hxa⟩

/-- `unregisterActions` keeps the names free of duplicates. -/
theorem unregisterActions_nodup (cur : List Action)
    (names : List String) (hn : (cur.map Action.name).Nodup) :
    ((unregisterActions cur names).map Action.name).Nodup := by
  rw [unregisterActions_names]
  exact hn.filter _

set_option maxHeartbeats 1000000 in
/-- `handleMessage` keeps the names of the live action set free of
duplicates. -/
theorem handleMessage_actions_nodup (av : SchemaOracle) (h : Handler)
    (m : Message) (hn : (h.actions.map Action.name).Nodup) :
    (((handleMessage av h m).handler.actions).map Action.name).Nodup := by
  obtain ⟨g, acts, msgs, pid, st, mq⟩ := h
  cases m <;> cases st <;>
    simp only [handleMessage, addContext, addActionResult,
      handleForcedAction, callOpenAI, Message.command, State.isPending] <;>
    split_ifs <;>
    first
      | exact hn
      | exact registerActions_nodup av _ _ hn
      | exact unregisterActions_nodup _ _ hn
      | simp

/-- The completion continuation never touches the action set. -/
theorem completeInvocation_actions (h : Handler)
    (f : Option ForceActionData) (res : CompletionResult) :
    (completeInvocation h f res).handler.actions = h.actions := by
  cases res with
  | failure => rfl
  | response choices =>
    rcases choices with _ | ⟨c, _ | ⟨c2, cs⟩⟩
    · rfl
    · dsimp only [completeInvocation, exitingOnError]
      split_ifs <;>
        first
          | rfl
          | (split <;> first | rfl | (split <;> rfl))
    · rfl

/-- Claim C4 (confirmed).  In every reachable system the live action
set never holds two entries with the same name; over any sequence of
register, unregister and startup operations a name is live exactly
when the claim-level presence rule (valid schema, not a duplicate at
registration time, not since unregistered or wiped) says so; and
within one register batch, removing an item that is rejected (as a
duplicate or for an invalid schema) leaves the outcome of the whole
batch unchanged — per-item rejection does not affect the other
items. -/
theorem action_registry (av : SchemaOracle) :
    (∀ s, Reach av s → (s.handler.actions.map Action.name).Nodup) ∧
    (∀ (ops : List RegOp) (n : String),
      n ∈ (applyRegOps av [] ops).map Action.name ↔
        n ∈ claimLiveNames av [] ops) ∧
    (∀ (cur pre post : List Action) (a : Action),
      ((registerActions av cur pre).any (fun x => x.name == a.name) ||
        !validateActionSchema av a) = true →
      registerActions av cur (pre ++ a :: post) =
        registerActions av cur (pre ++ post)) := by
  refine ⟨Reach.invariant av
      (fun hh => (hh.actions.map Action.name).Nodup)
      (by simp [initHandler])
      (fun h q hp => hp)
      (handleMessage_actions_nodup av)
      (fun h hp => hp)
      (fun h f res hp => by
        show (((completeInvocation h f res).handler.actions).map
          Action.name).Nodup
        rw [completeInvocation_actions]
        exact hp),
    ?_, ?_⟩
  · intro ops n
    rw [applyRegOps_names av ops []]
    exact Iff.rfl
  · intro cur pre post a hrej
    induction pre generalizing cur with
    | nil =>
      dsimp only [registerActions, List.nil_append]
      dsimp only [registerActions] at hrej
      by_cases hdup : (cur.any fun x => x.name == a.name) = true
      · rw [if_pos hdup]
      · have hval : (!validateActionSchema av a) = true := by
          rw [Bool.or_eq_true] at hrej
          rcases hrej with hcase | hcase
          · exact absurd hcase hdup
          · exact hcase
        rw [if_neg hdup, if_pos hval]
    | cons p pre ih =>
      dsimp only [registerActions, List.cons_append] at hrej ⊢
      split_ifs at hrej ⊢ <;> exact ih _ hrej

/-- Claim C4 witness: the no-duplicates invariant at the initial
system, and batch independence at a concrete rejected duplicate. -/
theorem action_registry_witness :
    ((Sys.mk initHandler []).handler.actions.map Action.name).Nodup ∧
    registerActions avTrue []
        ([⟨"jump", "d", none⟩] ++ ⟨"jump", "d", none⟩ :: []) =
      registerActions avTrue [] ([⟨"jump", "d", none⟩] ++ []) :=
  ⟨(action_registry avTrue).1 ⟨initHandler, []⟩ Reach.init,
    (action_registry avTrue).2.2 [] [⟨"jump", "d", none⟩] []
      ⟨"jump", "d", none⟩ rfl⟩

/-- Claim C10 (confirmed).  The conversation log is append-only and
monotonically growing: every handler operation — receiving a message,
handling it, draining the queue, and processing a completion outcome —
extends the log by appending at the end (the old log is an initial
segment of the new one and no turn is mutated or removed), and in
every reachable system the log begins with the initial system turn. -/
theorem conversation_log_append_only (av : SchemaOracle) :
    (∀ (h : Handler) (dec : Option Message), ∃ t,
      (receiveMessage av h dec).handler.openaiMessages =
        h.openaiMessages ++ t) ∧
    (∀ (h : Handler) (m : Message), ∃ t,
      (handleMessage av h m).handler.openaiMessages =
        h.openaiMessages ++ t) ∧
    (∀ h : Handler, ∃ t,
      (processMessageQueue av h).handler.openaiMessages =
        h.openaiMessages ++ t) ∧
    (∀ (h : Handler) (f : Option ForceActionData) (res : CompletionResult),
      ∃ t, (completeInvocation h f res).handler.openaiMessages =
        h.openaiMessages ++ t) ∧
    (∀ s, Reach av s → ∃ t,
      s.handler.openaiMessages = SYSTEM_MESSAGE :: t) := by
  refine ⟨receiveMessage_openaiMessages av, handleMessage_openaiMessages av,
    fun h => drainQueue_openaiMessages av h.messageQueue h,
    completeInvocation_openaiMessages,
    Reach.invariant av
      (fun hh => ∃ t, hh.openaiMessages = SYSTEM_MESSAGE :: t)
      ⟨[], rfl⟩
      (fun h q hp => hp)
      (fun h m hp => ?_)
      (fun h hp => hp)
      (fun h f res hp => ?_)⟩
  · obtain ⟨t0, ht0⟩ := hp
    obtain ⟨t1, ht1⟩ := handleMessage_openaiMessages av h m
    exact ⟨t0 ++ t1, by rw [ht1, ht0]; rfl⟩
  · obtain ⟨t0, ht0⟩ := hp
    obtain ⟨t1, ht1⟩ := completeInvocation_openaiMessages h f res
    exact ⟨t0 ++ t1, by rw [ht1, ht0]; rfl⟩

/-- Claim C10 witness: the log of the initial reachable system starts
with the system turn. -/
theorem conversation_log_append_only_witness :
    (Sys.mk initHandler []).handler.openaiMessages.head? =
      some SYSTEM_MESSAGE := by
  obtain ⟨t, ht⟩ := (conversation_log_append_only avTrue).2.2.2.2
    ⟨initHandler, []⟩ Reach.init
  rw [ht]
  rfl

end Jippity
